import Mathlib

/-!
Verification of the RAG chat backend (`chatbot-backend`): a shallow
embedding of the chunker, the embedding retry loop, the ingestion
pipeline, the collection-setup paths, the `/chat` prompt assembly and
guards, and the signup/me auth flow, together with theorems checking the
specification's claims against this embedding.

Texts are modelled as `List Char`; Python slicing `text[start:start+W]`
becomes `(text.drop start).take W`.
-/

namespace Chatbot

/-! ## Chunker (`ingest.py`, `chunk_text`)

The Python loop

```
start = 0
while start < len(text):
    chunks.append(text[start:start+max_chunk_size])
    start += max_chunk_size - overlap_size
```

is modelled with explicit fuel, so that the non-terminating behaviour at
`overlap_size >= max_chunk_size` (the step is then `<= 0`, `start` never
passes `len(text)`) is represented by `none` for every fuel bound.
In `Nat`, `W - O = 0` when `O >= W`, matching the zero-progress loop. -/

def chunkLoop (text : List Char) (W O : Nat) : Nat → Nat → Option (List (List Char))
  | _, 0 => none
  | start, fuel + 1 =>
    if start < text.length then
      (chunkLoop text W O (start + (W - O)) fuel).map
        (fun rest => (text.drop start).take W :: rest)
    else
      some []

/-- `chunk_text(text, max_chunk_size, overlap_size)`: returns `[]` on empty
text, otherwise runs the slicing loop.  Fuel `text.length + 1` is enough for
every terminating run (the step is at least 1 when `O < W`); `none` means
the Python loop would not terminate. -/
def chunk_text (text : List Char) (max_chunk_size overlap_size : Nat) :
    Option (List (List Char)) :=
  if text.isEmpty then some []
  else chunkLoop text max_chunk_size overlap_size 0 (text.length + 1)

/-- Closed form of the chunk list: chunk `i` is the slice starting at
`start + i*(W-O)` of width `W`. -/
def chunkSpec (text : List Char) (W O start : Nat) : List (List Char) :=
  (List.range ((text.length - start + (W - O) - 1) / (W - O))).map
    (fun i => (text.drop (start + i * (W - O))).take W)

/-- Ceiling-division step identity used to peel one chunk off the count. -/
lemma ceil_div_succ (x s : Nat) (hx : 0 < x) (hs : 0 < s) :
    (x + s - 1) / s = (x - s + s - 1) / s + 1 := by
  rcases le_or_lt x s with h | h
  · have h1 : x - s = 0 := Nat.sub_eq_zero_of_le h
    rw [h1]
    have h2 : (0 + s - 1) / s = 0 := Nat.div_eq_of_lt (by omega)
    have h3 : (x + s - 1) / s = 1 := by
      have : x + s - 1 = (x - 1) + s := by omega
      rw [this, Nat.add_div_right _ hs, Nat.div_eq_of_lt (by omega)]
    omega
  · have h4 : x + s - 1 = (x - s + s - 1) + s := by omega
    rw [h4, Nat.add_div_right _ hs]

/-- With `O < W` and enough fuel, the loop computes the closed form. -/
lemma chunkLoop_eq_chunkSpec (text : List Char) (W O : Nat) (hOW : O < W) :
    ∀ fuel start, text.length - start < fuel →
      chunkLoop text W O start fuel = some (chunkSpec text W O start) := by
  have hs : 0 < W - O := by omega
  intro fuel
  induction fuel with
  | zero => intro start h; omega
  | succ f ih =>
    intro start h
    rw [chunkLoop]
    by_cases hlt : start < text.length
    · rw [if_pos hlt, ih (start + (W - O)) (by omega)]
      simp only [Option.map_some']
      congr 1
      unfold chunkSpec
      have hx : 0 < text.length - start := by omega
      have hcount : (text.length - start + (W - O) - 1) / (W - O)
          = (text.length - (start + (W - O)) + (W - O) - 1) / (W - O) + 1 := by
        have := ceil_div_succ (text.length - start) (W - O) hx hs
        have harith : text.length - start - (W - O) = text.length - (start + (W - O)) := by
          omega
        rw [harith] at this
        exact this
      rw [hcount, List.range_succ_eq_map, List.map_cons]
      simp only [Nat.zero_mul, Nat.add_zero, List.map_map]
      congr 1
      apply List.map_congr_left
      intro i _
      simp only [Function.comp_apply]
      congr 2
      rw [Nat.succ_eq_add_one]
      ring
    · rw [if_neg hlt]
      unfold chunkSpec
      have : text.length - start = 0 := by omega
      rw [this]
      have hz : (0 + (W - O) - 1) / (W - O) = 0 := Nat.div_eq_of_lt (by omega)
      rw [hz, List.range_zero, List.map_nil]

/-- For `O < W`, `chunk_text` terminates and equals the closed form. -/
lemma chunk_text_eq (text : List Char) (W O : Nat) (hOW : O < W) :
    chunk_text text W O = some (chunkSpec text W O 0) := by
  unfold chunk_text
  by_cases hemp : text.isEmpty
  · rw [if_pos hemp]
    have hlen : text.length = 0 := by
      cases text with
      | nil => rfl
      | cons a l => simp [List.isEmpty] at hemp
    unfold chunkSpec
    rw [hlen]
    have hz : (0 - 0 + (W - O) - 1) / (W - O) = 0 := Nat.div_eq_of_lt (by omega)
    rw [hz, List.range_zero, List.map_nil]
  · rw [if_neg hemp]
    exact chunkLoop_eq_chunkSpec text W O hOW (text.length + 1) 0 (by omega)

/-- Chunk count claimed by the spec: `ceil(max(L - O, 1) / (W - O))`. -/
def claimedChunkCount (L W O : Nat) : Nat :=
  (max (L - O) 1 + (W - O) - 1) / (W - O)

lemma chunkSpec_length (text : List Char) (W O : Nat) :
    (chunkSpec text W O 0).length = (text.length + (W - O) - 1) / (W - O) := by
  unfold chunkSpec
  rw [List.length_map, List.length_range, Nat.sub_zero]

/-- `j < L` implies the index `j / s` is below the chunk count `ceil(L/s)`. -/
lemma div_lt_ceil (j L s : Nat) (hs : 0 < s) (hj : j < L) :
    j / s < (L + s - 1) / s := by
  rw [Nat.lt_iff_add_one_le, Nat.le_div_iff_mul_le hs]
  have h1 : j / s * s ≤ j := Nat.div_mul_le_self j s
  have h3 : (j / s + 1) * s = j / s * s + s := by ring
  rw [h3]
  generalize j / s * s = A at h1 ⊢
  omega

/-- Every `j` lies below `(j / s) * s + s`. -/
lemma lt_div_mul_add (j s : Nat) (hs : 0 < s) : j < j / s * s + s := by
  have h := Nat.div_add_mod j s
  have hm : j % s < s := Nat.mod_lt _ hs
  have hcomm : j / s * s = s * (j / s) := Nat.mul_comm _ _
  rw [hcomm]
  generalize s * (j / s) = A at h ⊢
  generalize j % s = r at h hm
  omega

/-- **C1.** For `O < W`, `chunk_text` terminates and returns a list `l` where
chunk `i` is exactly the slice `[i*(W-O), i*(W-O)+W)` of the text (clipped to
its length), every index of the text is covered by some chunk (no gaps), every
chunk has length at most `W`, and the empty text yields the empty list.
Determinism is immediate since `chunk_text` is a pure function. -/
theorem chunk_text_correct (text : List Char) (W O : Nat) (hOW : O < W) :
    ∃ l, chunk_text text W O = some l ∧
      (∀ i, i < l.length →
        l.get? i = some ((text.drop (i * (W - O))).take W)) ∧
      (∀ c ∈ l, c.length ≤ W) ∧
      (∀ j, j < text.length →
        ∃ i, i < l.length ∧ i * (W - O) ≤ j ∧ j < i * (W - O) + W) ∧
      (text = [] → l = []) := by
  have hs : 0 < W - O := by omega
  refine ⟨chunkSpec text W O 0, chunk_text_eq text W O hOW, ?_, ?_, ?_, ?_⟩
  · intro i hi
    unfold chunkSpec at hi ⊢
    rw [List.length_map, List.length_range] at hi
    rw [List.get?_map, List.get?_range hi]
    simp only [Option.map_some', Nat.zero_add]
  · intro c hc
    unfold chunkSpec at hc
    rw [List.mem_map] at hc
    obtain ⟨i, _, rfl⟩ := hc
    rw [List.length_take]
    exact Nat.min_le_left _ _
  · intro j hj
    refine ⟨j / (W - O), ?_, ?_, ?_⟩
    · rw [chunkSpec_length]
      exact div_lt_ceil j text.length (W - O) hs hj
    · exact Nat.div_mul_le_self j (W - O)
    · have h := lt_div_mul_add j (W - O) hs
      generalize j / (W - O) * (W - O) = A at h ⊢
      omega
  · intro h
    subst h
    unfold chunkSpec
    simp only [List.length_nil]
    have hz : (0 - 0 + (W - O) - 1) / (W - O) = 0 := Nat.div_eq_of_lt (by omega)
    rw [hz, List.range_zero, List.map_nil]

/-- Witness for C1 at `text = "abcdefgh"`, `W = 3`, `O = 1`. -/
theorem chunk_text_correct_witness :
    ∃ l, chunk_text "abcdefgh".data 3 1 = some l ∧
      (∀ i, i < l.length →
        l.get? i = some (("abcdefgh".data.drop (i * (3 - 1))).take 3)) ∧
      (∀ c ∈ l, c.length ≤ 3) ∧
      (∀ j, j < "abcdefgh".data.length →
        ∃ i, i < l.length ∧ i * (3 - 1) ≤ j ∧ j < i * (3 - 1) + 3) ∧
      ("abcdefgh".data = [] → l = []) :=
  chunk_text_correct "abcdefgh".data 3 1 (by omega)

/-- **C3, counterexample.** The spec's chunk-count formula
`ceil(max(L - O, 1) / (W - O))` is wrong: for a text of length `L = 5` with
`W = 5`, `O = 2` the code produces 2 chunks (starts 0 and 3) while the formula
gives 1; this also refutes "when `L ≤ W` exactly one chunk is returned". -/
theorem chunk_count_claim_false :
    (chunk_text (List.replicate 5 'a') 5 2).map List.length ≠
        some (claimedChunkCount 5 5 2) ∧
      (chunk_text (List.replicate 5 'a') 5 2).map List.length = some 2 ∧
      claimedChunkCount 5 5 2 = 1 ∧ (5 : Nat) ≤ 5 := by
  decide

/-- **C3, amended.** For `O < W` and a non-empty text of length `L`, the number
of chunks is `ceil(L / (W - O))`; in particular exactly one chunk is returned
precisely when `L ≤ W - O`. -/
theorem chunk_text_count (text : List Char) (W O : Nat) (hOW : O < W)
    (hL : 0 < text.length) :
    (chunk_text text W O).map List.length =
        some ((text.length + (W - O) - 1) / (W - O)) ∧
      ((chunk_text text W O).map List.length = some 1 ↔
        text.length ≤ W - O) := by
  have hs : 0 < W - O := by omega
  rw [chunk_text_eq text W O hOW]
  simp only [Option.map_some', chunkSpec_length, Option.some.injEq]
  constructor
  · trivial
  · constructor
    · intro h
      by_contra hgt
      push_neg at hgt
      have : 2 ≤ (text.length + (W - O) - 1) / (W - O) := by
        rw [Nat.le_div_iff_mul_le hs]
        omega
      omega
    · intro h
      have h1 : text.length + (W - O) - 1 < 2 * (W - O) := by omega
      have h2 : (W - O) ≤ text.length + (W - O) - 1 := by omega
      have h3 : (text.length + (W - O) - 1) / (W - O) < 2 :=
        Nat.div_lt_of_lt_mul (by omega)
      have h4 : 1 ≤ (text.length + (W - O) - 1) / (W - O) := by
        rw [Nat.le_div_iff_mul_le hs]
        omega
      omega

/-- Witness for C3's amended theorem at `text = "abcde"`, `W = 5`, `O = 2`. -/
theorem chunk_text_count_witness :
    (chunk_text "abcde".data 5 2).map List.length =
        some (("abcde".data.length + (5 - 2) - 1) / (5 - 2)) ∧
      ((chunk_text "abcde".data 5 2).map List.length = some 1 ↔
        "abcde".data.length ≤ 5 - 2) :=
  chunk_text_count "abcde".data 5 2 (by omega) (by decide)

/-- **C4.** `chunk_text` has no guard for `overlap_size ≥ max_chunk_size`: on
input `"ab"` with `W = O = 3` the step `W - O` is zero, `start` never advances
past 0, and the loop never terminates — `none` for every fuel bound — instead
of rejecting the configuration as the spec requires. -/
theorem chunk_text_no_overlap_guard :
    ∀ fuel, chunkLoop "ab".data 3 3 0 fuel = none := by
  intro fuel
  induction fuel with
  | zero => rfl
  | succ f ih =>
    rw [chunkLoop, if_pos (by decide)]
    rw [show (0 + (3 - 3) : Nat) = 0 from rfl, ih]
    rfl

/-! ## Embedder (`ingest.py`, `generate_embedding`)

The Gemini call is modelled as an oracle `api : Nat → EmbedOutcome` giving
the outcome of each attempt: a successful embedding, a rate-limit
(`ResourceExhausted`) failure, or any other exception.  The Python `for
attempt in range(max_retries)` loop with its two `except` arms becomes a
structural recursion; alongside the `Option` result we return the list of
sleep delays performed, one entry per rate-limited attempt. -/

inductive EmbedOutcome where
  | success (v : List Int)
  | rateLimit
  | otherError
deriving DecidableEq

def embedAttempts (api : Nat → EmbedOutcome) (delay : Nat) :
    Nat → Nat → Option (List Int) × List Nat
  | _, 0 => (none, [])
  | attempt, fuel + 1 =>
    match api attempt with
    | .success v => (some v, [])
    | .rateLimit =>
      let r := embedAttempts api delay (attempt + 1) fuel
      (r.1, delay :: r.2)
    | .otherError => (none, [])

/-- `generate_embedding(text, max_retries=5, delay=5)`: tries up to
`max_retries` attempts, sleeping `delay` after each rate-limit failure,
returning `none` (Python `None`) immediately on any other failure and after
exhausting all retries.  Being a total Lean function, it never raises. -/
def generate_embedding (api : Nat → EmbedOutcome)
    (max_retries : Nat := 5) (delay : Nat := 5) :
    Option (List Int) × List Nat :=
  embedAttempts api delay 0 max_retries

lemma embedAttempts_all_rateLimit (api : Nat → EmbedOutcome) (d : Nat) :
    ∀ fuel a, (∀ k, k < fuel → api (a + k) = .rateLimit) →
      embedAttempts api d a fuel = (none, List.replicate fuel d) := by
  intro fuel
  induction fuel with
  | zero => intro a _; rfl
  | succ f ih =>
    intro a h
    have h0 : api a = .rateLimit := by
      have := h 0 (Nat.succ_pos f)
      rwa [Nat.add_zero] at this
    rw [embedAttempts, h0]
    have hrec := ih (a + 1) (fun k hk => by
      have := h (k + 1) (by omega)
      rwa [show a + (k + 1) = a + 1 + k by omega] at this)
    rw [hrec, List.replicate_succ]

lemma embedAttempts_decisive (api : Nat → EmbedOutcome) (d : Nat) :
    ∀ j fuel a, j < fuel → (∀ k, k < j → api (a + k) = .rateLimit) →
      ((api (a + j) = .otherError →
          embedAttempts api d a fuel = (none, List.replicate j d)) ∧
        (∀ v, api (a + j) = .success v →
          embedAttempts api d a fuel = (some v, List.replicate j d))) := by
  intro j
  induction j with
  | zero =>
    intro fuel a hj _
    obtain ⟨f, rfl⟩ : ∃ f, fuel = f + 1 := ⟨fuel - 1, by omega⟩
    constructor
    · intro herr
      rw [Nat.add_zero] at herr
      rw [embedAttempts, herr]
      rfl
    · intro v hsucc
      rw [Nat.add_zero] at hsucc
      rw [embedAttempts, hsucc]
      rfl
  | succ m ih =>
    intro fuel a hj hpre
    obtain ⟨f, rfl⟩ : ∃ f, fuel = f + 1 := ⟨fuel - 1, by omega⟩
    have h0 : api a = .rateLimit := by
      have := hpre 0 (Nat.succ_pos m)
      rwa [Nat.add_zero] at this
    have hpre' : ∀ k, k < m → api (a + 1 + k) = .rateLimit := fun k hk => by
      have := hpre (k + 1) (by omega)
      rwa [show a + (k + 1) = a + 1 + k by omega] at this
    have ih' := ih f (a + 1) (by omega) hpre'
    have hshift : a + 1 + m = a + (m + 1) := by omega
    constructor
    · intro herr
      rw [embedAttempts, h0]
      rw [(ih'.1 (by rwa [hshift])), List.replicate_succ]
    · intro v hsucc
      rw [embedAttempts, h0]
      rw [(ih'.2 v (by rwa [hshift])), List.replicate_succ]

/-- **C2.** `generate_embedding` retries only on rate-limit failures with a
fixed per-retry delay: (1) after `max_retries` consecutive rate-limit
failures it returns `none` having slept `max_retries` times (and, being a
total function, never raises); (2) a non-rate-limit failure at attempt `j`
makes it return `none` immediately, with only the `j` earlier rate-limited
attempts having slept; (3) a success at attempt `j` returns the embedding,
again with exactly `j` sleeps of the fixed delay. -/
theorem generate_embedding_retry_policy (api : Nat → EmbedOutcome)
    (max_retries delay : Nat) :
    ((∀ k, k < max_retries → api k = .rateLimit) →
      generate_embedding api max_retries delay =
        (none, List.replicate max_retries delay)) ∧
    (∀ j, j < max_retries → (∀ k, k < j → api k = .rateLimit) →
      api j = .otherError →
      generate_embedding api max_retries delay =
        (none, List.replicate j delay)) ∧
    (∀ j v, j < max_retries → (∀ k, k < j → api k = .rateLimit) →
      api j = .success v →
      generate_embedding api max_retries delay =
        (some v, List.replicate j delay)) := by
  refine ⟨?_, ?_, ?_⟩
  · intro h
    exact embedAttempts_all_rateLimit api delay max_retries 0
      (fun k hk => by rw [Nat.zero_add]; exact h k hk)
  · intro j hj hpre herr
    exact (embedAttempts_decisive api delay j max_retries 0 hj
      (fun k hk => by rw [Nat.zero_add]; exact hpre k hk)).1
      (by rwa [Nat.zero_add])
  · intro j v hj hpre hsucc
    exact (embedAttempts_decisive api delay j max_retries 0 hj
      (fun k hk => by rw [Nat.zero_add]; exact hpre k hk)).2 v
      (by rwa [Nat.zero_add])

/-- Witness for C2 with the default parameters: an oracle that always
rate-limits exhausts the five attempts and yields no embedding, and an
oracle failing with an unexpected error on the first attempt returns
immediately with no sleeps. -/
theorem generate_embedding_retry_policy_witness :
    generate_embedding (fun _ => .rateLimit) 5 5 =
        (none, List.replicate 5 5) ∧
      generate_embedding (fun _ => .otherError) 5 5 = (none, []) :=
  ⟨(generate_embedding_retry_policy (fun _ => .rateLimit) 5 5).1
      (fun _ _ => rfl),
    (generate_embedding_retry_policy (fun _ => .otherError) 5 5).2.1 0
      (by omega) (fun k hk => absurd hk (by omega)) rfl⟩

/-! ## Ingestion pipeline (`ingest.py`, `ingest_book_content`)

The corpus walk is modelled as a list of files, each with its name (for the
`.md`/`.mdx` extension filter), content, and a flag saying whether reading
it succeeds (the `try`/`except` per file).  The embedding call for a chunk
is abstracted as an oracle `embed : List Char → Option (List Int)` — `none`
is the embedder's "no embedding produced" signal, after which the chunk is
skipped.  `MAX_CHUNK_SIZE = 1000`, `OVERLAP_SIZE = 200`. -/

def MAX_CHUNK_SIZE : Nat := 1000

def OVERLAP_SIZE : Nat := 200

/-- Python whitespace for `str.strip()`. -/
def isPySpace (c : Char) : Bool :=
  c = ' ' || c = '\t' || c = '\n' || c = '\r' ||
    c = Char.ofNat 11 || c = Char.ofNat 12

/-- `not chunk.strip()`: true iff the chunk is empty or whitespace-only. -/
def stripEmpty (s : List Char) : Bool := s.all isPySpace

/-- A point accumulated for the Qdrant upsert. -/
structure PointStruct where
  id : Nat
  vector : List Int
  payload_file_path : String
  payload_chunk_index : Nat
  payload_text : List Char
deriving DecidableEq

/-- A file reached by the `os.walk` over `DOCS_PATH`. -/
structure SourceFile where
  name : String
  content : List Char
  readable : Bool
deriving DecidableEq

def isDocFile (name : String) : Bool :=
  name.endsWith ".md" || name.endsWith ".mdx"

/-- The `for i, chunk in enumerate(chunks)` body: skip whitespace-only
chunks, skip chunks whose embedding failed, otherwise append a point with
the next counter value and increment the counter. -/
def processChunks (embed : List Char → Option (List Int)) (path : String) :
    List (Nat × List Char) → Nat → List PointStruct × Nat
  | [], pid => ([], pid)
  | (i, ch) :: rest, pid =>
    if stripEmpty ch then processChunks embed path rest pid
    else
      match embed ch with
      | none => processChunks embed path rest pid
      | some v =>
        let r := processChunks embed path rest (pid + 1)
        (⟨pid, v, path, i, ch⟩ :: r.1, r.2)

/-- One file: extension filter, read (skipping the file on failure), chunk,
then the chunk loop. -/
def processFile (embed : List Char → Option (List Int)) (f : SourceFile)
    (pid : Nat) : List PointStruct × Nat :=
  if isDocFile f.name then
    if f.readable then
      processChunks embed f.name
        (((chunk_text f.content MAX_CHUNK_SIZE OVERLAP_SIZE).getD []).enum) pid
    else ([], pid)
  else ([], pid)

def processCorpus (embed : List Char → Option (List Int)) :
    List SourceFile → Nat → List PointStruct × Nat
  | [], pid => ([], pid)
  | f :: fs, pid =>
    let r := processFile embed f pid
    let r2 := processCorpus embed fs r.2
    (r.1 ++ r2.1, r2.2)

/-- Result of one ingestion run: the accumulated points and whether the
final batched `upsert` was performed (`if points:`). -/
structure IngestRun where
  points : List PointStruct
  upsertCalled : Bool
deriving DecidableEq

/-- `ingest_book_content()` over an abstract corpus and embedding oracle:
walk all files with the counter starting at 0, then upsert once at the end
unless no points were produced. -/
def ingest_book_content (embed : List Char → Option (List Int))
    (corpus : List SourceFile) : IngestRun :=
  let r := processCorpus embed corpus 0
  ⟨r.1, !r.1.isEmpty⟩

lemma processChunks_ids (embed : List Char → Option (List Int))
    (path : String) :
    ∀ l pid,
      (processChunks embed path l pid).1.map PointStruct.id =
          List.range' pid (processChunks embed path l pid).1.length ∧
        (processChunks embed path l pid).2 =
          pid + (processChunks embed path l pid).1.length := by
  intro l
  induction l with
  | nil => intro pid; exact ⟨rfl, rfl⟩
  | cons hd rest ih =>
    intro pid
    obtain ⟨i, ch⟩ := hd
    rw [processChunks]
    by_cases hskip : stripEmpty ch
    · rw [if_pos hskip]
      exact ih pid
    · rw [if_neg hskip]
      cases hemb : embed ch with
      | none => exact ih pid
      | some v =>
        have ihr := ih (pid + 1)
        simp only [List.map_cons, List.length_cons]
        refine ⟨?_, by omega⟩
        rw [List.range'_succ, ihr.1]

lemma processFile_ids (embed : List Char → Option (List Int))
    (f : SourceFile) (pid : Nat) :
    (processFile embed f pid).1.map PointStruct.id =
        List.range' pid (processFile embed f pid).1.length ∧
      (processFile embed f pid).2 =
        pid + (processFile embed f pid).1.length := by
  unfold processFile
  by_cases hdoc : isDocFile f.name
  · rw [if_pos hdoc]
    by_cases hr : f.readable
    · rw [if_pos hr]
      exact processChunks_ids embed f.name _ pid
    · rw [if_neg hr]
      exact ⟨rfl, rfl⟩
  · rw [if_neg hdoc]
    exact ⟨rfl, rfl⟩

lemma processCorpus_ids (embed : List Char → Option (List Int)) :
    ∀ corpus pid,
      (processCorpus embed corpus pid).1.map PointStruct.id =
          List.range' pid (processCorpus embed corpus pid).1.length ∧
        (processCorpus embed corpus pid).2 =
          pid + (processCorpus embed corpus pid).1.length := by
  intro corpus
  induction corpus with
  | nil => intro pid; exact ⟨rfl, rfl⟩
  | cons f fs ih =>
    intro pid
    rw [processCorpus]
    have hf := processFile_ids embed f pid
    have hrec := ih (processFile embed f pid).2
    simp only [List.map_append, List.length_append]
    constructor
    · rw [hf.1, hrec.1, hf.2, List.range'_append_1, Nat.add_comm]
    · rw [hrec.2, hf.2]
      omega

/-- **C5.** In a single ingestion run the point ids are assigned by a counter
starting at 0, incremented once per successfully embedded, non-whitespace
chunk: the batch of upserted points carries ids exactly `0, 1, ..., N-1` in
production order, where `N` is the number of points. -/
theorem ingest_point_ids (embed : List Char → Option (List Int))
    (corpus : List SourceFile) :
    (ingest_book_content embed corpus).points.map PointStruct.id =
      List.range (ingest_book_content embed corpus).points.length := by
  rw [List.range_eq_range']
  exact (processCorpus_ids embed corpus 0).1

lemma snd_mem_of_mem_enumFrom {α : Type} :
    ∀ (l : List α) (n : Nat) (p : Nat × α), p ∈ l.enumFrom n → p.2 ∈ l := by
  intro l
  induction l with
  | nil => intro n p h; cases h
  | cons hd tl ih =>
    intro n p h
    rw [List.enumFrom, List.mem_cons] at h
    rcases h with h | h
    · subst h; exact List.mem_cons_self _ _
    · exact List.mem_cons_of_mem _ (ih (n + 1) p h)

lemma processChunks_all_ws (embed : List Char → Option (List Int))
    (path : String) :
    ∀ l pid, (∀ p ∈ l, stripEmpty p.2 = true) →
      processChunks embed path l pid = ([], pid) := by
  intro l
  induction l with
  | nil => intro pid _; rfl
  | cons hd rest ih =>
    intro pid h
    obtain ⟨i, ch⟩ := hd
    rw [processChunks, if_pos (h (i, ch) (List.mem_cons_self _ _))]
    exact ih pid (fun p hp => h p (List.mem_cons_of_mem _ hp))

/-- **C6.** If every chunk of every readable file of the corpus is empty or
whitespace-only, the ingestion run accumulates zero points and the final
upsert call is skipped entirely. -/
theorem ingest_whitespace_corpus_no_upsert
    (embed : List Char → Option (List Int)) (corpus : List SourceFile)
    (h : ∀ f ∈ corpus, f.readable = true →
      ∀ ch ∈ (chunk_text f.content MAX_CHUNK_SIZE OVERLAP_SIZE).getD [],
        stripEmpty ch = true) :
    (ingest_book_content embed corpus).points = [] ∧
      (ingest_book_content embed corpus).upsertCalled = false := by
  have key : ∀ cs, (∀ f ∈ cs, f.readable = true →
      ∀ ch ∈ (chunk_text f.content MAX_CHUNK_SIZE OVERLAP_SIZE).getD [],
        stripEmpty ch = true) →
      ∀ pid, processCorpus embed cs pid = ([], pid) := by
    intro cs
    induction cs with
    | nil => intro _ pid; rfl
    | cons f fs ih =>
      intro hcs pid
      rw [processCorpus]
      have hfile : processFile embed f pid = ([], pid) := by
        unfold processFile
        by_cases hdoc : isDocFile f.name
        · rw [if_pos hdoc]
          by_cases hr : f.readable
          · rw [if_pos hr]
            apply processChunks_all_ws
            intro p hp
            exact hcs f (List.mem_cons_self _ _) hr p.2
              (snd_mem_of_mem_enumFrom _ 0 p hp)
          · rw [if_neg hr]
        · rw [if_neg hdoc]
      rw [hfile, ih (fun g hg => hcs g (List.mem_cons_of_mem _ hg)) pid]
      rfl
  have hrun := key corpus h 0
  unfold ingest_book_content
  rw [hrun]
  exact ⟨rfl, rfl⟩

/-- Witness for C6: a corpus of one readable markdown file containing only
spaces and newlines produces no points and no upsert. -/
theorem ingest_whitespace_corpus_no_upsert_witness :
    (ingest_book_content (fun _ => none)
        [⟨"notes.md", "  \n  ".data, true⟩]).points = [] ∧
      (ingest_book_content (fun _ => none)
        [⟨"notes.md", "  \n  ".data, true⟩]).upsertCalled = false :=
  ingest_whitespace_corpus_no_upsert (fun _ => none)
    [⟨"notes.md", "  \n  ".data, true⟩] (by decide)

/-! ## `/chat` prompt assembly (`main.py`, `chat_with_rag`, steps 3–4)

`"\n---".join(retrieved_chunks)` is modelled by `joinSep`; the
`if context_text:` truthiness test means a `None` **or empty** selected
text takes the else-branch. -/

/-- Python `sep.join(parts)`. -/
def joinSep (sep : List Char) : List (List Char) → List Char
  | [] => []
  | [c] => c
  | c :: c2 :: cs => c ++ sep ++ joinSep sep (c2 :: cs)

/-- The separator between retrieved chunks: `"\n---"`. -/
def CHUNK_SEPARATOR : List Char := "\n---".data

/-- `combined_context`: the `if context_text:` / `else` assembly.  The
truthiness test sends both `None` and the empty string to the else-branch. -/
def combined_context (context_text : Option (List Char))
    (retrieved_chunks : List (List Char)) : List Char :=
  if context_text.getD [] ≠ [] then
    "User selected text for context:\n".data ++ context_text.getD [] ++
      "\n\nRelevant document chunks:\n".data ++
      joinSep CHUNK_SEPARATOR retrieved_chunks
  else
    "Relevant document chunks:\n".data ++
      joinSep CHUNK_SEPARATOR retrieved_chunks

/-- The fixed instruction preamble of the prompt. -/
def INSTRUCTION_PREAMBLE : List Char :=
  ("You are a helpful assistant specialized in Physical AI & Humanoid " ++
    "Robotics. Answer the user\x27s question based ONLY on the provided " ++
    "context. If the answer cannot be found in the context, state that " ++
    "you don\x27t have enough information.\n\n").data

/-- The full prompt handed to the LLM. -/
def chat_prompt (question ctx : List Char) : List Char :=
  INSTRUCTION_PREAMBLE ++ "Context:\n".data ++ ctx ++ "\n\n".data ++
    "Question: ".data ++ question

lemma mem_infix_joinSep (sep : List Char) :
    ∀ (chunks : List (List Char)) (c : List Char), c ∈ chunks →
      c <:+: joinSep sep chunks := by
  intro chunks
  induction chunks with
  | nil => intro c hc; cases hc
  | cons hd tl ih =>
    intro c hc
    cases tl with
    | nil =>
      rw [List.mem_singleton] at hc
      subst hc
      exact List.infix_refl _
    | cons hd2 tl2 =>
      rw [List.mem_cons] at hc
      rcases hc with rfl | hc
      · exact ⟨[], sep ++ joinSep sep (hd2 :: tl2), by
          rw [joinSep]
          simp [List.append_assoc]⟩
      · obtain ⟨s, t, hst⟩ := ih c hc
        exact ⟨hd ++ sep ++ s, t, by
          rw [joinSep, ← hst]
          simp [List.append_assoc]⟩

/-- **C7, counterexample.** A supplied-but-empty `selected_text` is falsy in
Python, so the labeled "user-selected text" section is absent: the context
for `selected_text = ""` and chunks `["A"]` is just the chunks section, and
the label does not occur in it — the claim's "when selected_text is
supplied" case fails for the empty string. -/
theorem chat_context_empty_selected_no_label :
    combined_context (some []) ["A".data] =
        "Relevant document chunks:\nA".data ∧
      ¬ ("User selected text for context:\n".data <:+:
          combined_context (some []) ["A".data]) := by
  decide

/-- **C7, amended.** When `selected_text` is supplied and non-empty, the
assembled context is the labeled selected text followed by the retrieved
chunks joined by `"\n---"`, so the selected text occurs before every
retrieved chunk; when `selected_text` is absent (or empty), the context is
only the joined retrieved chunks; and in the final prompt the context sits
after the fixed instruction preamble. -/
theorem chat_context_assembly (t question : List Char)
    (chunks : List (List Char)) (ht : t ≠ []) :
    (∃ rest, combined_context (some t) chunks =
        "User selected text for context:\n".data ++ t ++ rest ∧
      rest = "\n\nRelevant document chunks:\n".data ++
        joinSep CHUNK_SEPARATOR chunks ∧
      ∀ c ∈ chunks, c <:+: rest) ∧
    combined_context none chunks =
      "Relevant document chunks:\n".data ++
        joinSep CHUNK_SEPARATOR chunks ∧
    (∀ ctx, ∃ post, chat_prompt question ctx =
      INSTRUCTION_PREAMBLE ++ post ∧ ctx <:+: post) := by
  refine ⟨⟨"\n\nRelevant document chunks:\n".data ++
      joinSep CHUNK_SEPARATOR chunks, ?_, rfl, ?_⟩, ?_, ?_⟩
  · rw [combined_context, if_pos]
    · simp [List.append_assoc]
    · simpa using ht
  · intro c hc
    obtain ⟨s, u, hsu⟩ := mem_infix_joinSep CHUNK_SEPARATOR chunks c hc
    exact ⟨"\n\nRelevant document chunks:\n".data ++ s, u, by
      rw [← hsu]; simp [List.append_assoc]⟩
  · rw [combined_context, if_neg]
    simp
  · intro ctx
    refine ⟨"Context:\n".data ++ ctx ++ "\n\n".data ++
      "Question: ".data ++ question, ?_, ?_⟩
    · rw [chat_prompt]
      simp [List.append_assoc]
    · exact ⟨"Context:\n".data, "\n\n".data ++ "Question: ".data ++ question,
        by simp [List.append_assoc]⟩

/-- Witness for C7's amended theorem at `selected_text = "X"`, chunks
`["A", "B"]`. -/
theorem chat_context_assembly_witness :
    (∃ rest, combined_context (some "X".data) ["A".data, "B".data] =
        "User selected text for context:\n".data ++ "X".data ++ rest ∧
      rest = "\n\nRelevant document chunks:\n".data ++
        joinSep CHUNK_SEPARATOR ["A".data, "B".data] ∧
      ∀ c ∈ ["A".data, "B".data], c <:+: rest) ∧
    combined_context none ["A".data, "B".data] =
      "Relevant document chunks:\n".data ++
        joinSep CHUNK_SEPARATOR ["A".data, "B".data] ∧
    (∀ ctx, ∃ post, chat_prompt "Q".data ctx =
      INSTRUCTION_PREAMBLE ++ post ∧ ctx <:+: post) :=
  chat_context_assembly "X".data "Q".data ["A".data, "B".data] (by decide)

/-! ## `/chat` backend guards (`main.py` 297–310, `qdrant_client_lib.py`)

`gemini_model` and the global `qdrant_client_instance` are modelled as
`Option` state.  `get_qdrant_client()` lazily constructs the client when the
global is `None` and returns it, so it always returns a (truthy) client
object.  The downstream calls are oracles; the list of network calls
actually attempted is returned alongside the response. -/

inductive NetworkCall where
  | embedRequest
  | indexSearch
  | llmGenerate
deriving DecidableEq

structure ChatState where
  gemini_model : Option Unit
  qdrant_client_instance : Option Unit
deriving DecidableEq

/-- `get_qdrant_client()`: construct the client if the global is `None`,
then return it (never `None`). -/
def get_qdrant_client (st : ChatState) : Unit × ChatState :=
  match st.qdrant_client_instance with
  | some c => (c, st)
  | none => ((), { st with qdrant_client_instance := some () })

/-- A Python object is truthy; `not get_qdrant_client()` tests this. -/
def clientTruthy (_ : Unit) : Bool := true

inductive ChatResponse where
  | answer (text : List Char)
  | httpError (status : Nat) (detail : String)
deriving DecidableEq

/-- `chat_with_rag`: the two initialization guards, then query embedding,
index search, context assembly and LLM generation, with the downstream
services abstracted as oracles.  Every network call attempted is recorded. -/
def chat_with_rag (st : ChatState)
    (embedResult : Option (List Int))
    (searchResult : List Int → Except String (List (List Char)))
    (llmResult : List Char → Except String (List Char))
    (question : List Char) (selected_text : Option (List Char)) :
    ChatResponse × List NetworkCall :=
  match st.gemini_model with
  | none => (.httpError 500 "Gemini client not initialized.", [])
  | some _ =>
    if clientTruthy (get_qdrant_client st).1 = false then
      (.httpError 500 "Qdrant client not initialized.", [])
    else
      match embedResult with
      | none =>
        (.httpError 500 "Failed to generate query embedding.",
          [.embedRequest])
      | some qv =>
        match searchResult qv with
        | .error e =>
          (.httpError 500 ("Qdrant search failed: " ++ e),
            [.embedRequest, .indexSearch])
        | .ok chunks =>
          match llmResult
              (chat_prompt question (combined_context selected_text chunks)) with
          | .error e =>
            (.httpError 500 ("LLM generation failed: " ++ e),
              [.embedRequest, .indexSearch, .llmGenerate])
          | .ok ans =>
            (.answer ans, [.embedRequest, .indexSearch, .llmGenerate])

/-- **C8, counterexample.** With the LLM backend initialized but the vector
index client *not* initialized, `/chat` does not fail: `get_qdrant_client()`
lazily constructs a client and returns it (always truthy), so the
`if not get_qdrant_client():` guard is dead code and the request proceeds to
make network calls. -/
theorem chat_uninitialized_index_not_rejected :
    (chat_with_rag ⟨some (), none⟩ (some [1])
        (fun _ => .ok ["A".data]) (fun _ => .ok "ans".data)
        "Q".data none).2 ≠ [] ∧
      (chat_with_rag ⟨some (), none⟩ (some [1])
        (fun _ => .ok ["A".data]) (fun _ => .ok "ans".data)
        "Q".data none).1 = .answer "ans".data := by
  exact ⟨by simp [chat_with_rag, clientTruthy], rfl⟩

/-- **C8, amended.** When the LLM backend (`gemini_model`) is not
initialized, `/chat` returns a 500 failure before attempting any network
call; the vector-index guard, however, can never fire, because
`get_qdrant_client()` always returns a freshly-constructed (truthy) client
when the global instance is `None`. -/
theorem chat_uninitialized_gemini_rejected_before_network
    (st : ChatState) (embedResult : Option (List Int))
    (searchResult : List Int → Except String (List (List Char)))
    (llmResult : List Char → Except String (List Char))
    (question : List Char) (selected_text : Option (List Char))
    (h : st.gemini_model = none) :
    chat_with_rag st embedResult searchResult llmResult question
        selected_text =
      (.httpError 500 "Gemini client not initialized.", []) ∧
    ∀ s : ChatState, clientTruthy (get_qdrant_client s).1 = true := by
  constructor
  · rw [chat_with_rag.eq_def, h]
  · intro s; rfl

/-- Witness for C8's amended theorem: both backends uninitialized. -/
theorem chat_uninitialized_gemini_witness :
    chat_with_rag ⟨none, none⟩ none (fun _ => .error "")
        (fun _ => .error "") "Q".data none =
      (.httpError 500 "Gemini client not initialized.", []) ∧
    ∀ s : ChatState, clientTruthy (get_qdrant_client s).1 = true :=
  chat_uninitialized_gemini_rejected_before_network ⟨none, none⟩ none
    (fun _ => .error "") (fun _ => .error "") "Q".data none rfl

/-! ## Collection setup (`ingest.py` 57–60 vs `qdrant_client_lib.py` 17–31)

The Qdrant server's collections are modelled as an association list from
collection name to configured vector dimensionality. -/

def QDRANT_COLLECTION_NAME : String := "book_content"

/-- Configured dimensionality of a named collection, if it exists. -/
def dimOf (cols : List (String × Nat)) (name : String) : Option Nat :=
  (cols.find? (fun p => p.1 == name)).map Prod.snd

/-- `recreate_collection`: drop any existing collection of that name and
create it afresh with the given vector size (destructive). -/
def recreate_collection (cols : List (String × Nat)) (name : String)
    (size : Nat) : List (String × Nat) :=
  (name, size) :: cols.filter (fun p => !(p.1 == name))

/-- The ingestion path (`ingest_book_content`, lines 57–60): unconditional
destructive recreate with vector size 768. -/
def ingestEnsureCollection (cols : List (String × Nat)) :
    List (String × Nat) :=
  recreate_collection cols QDRANT_COLLECTION_NAME 768

/-- The startup path (`initialize_qdrant_collection`): list the existing
collections, create the collection with vector size 1536 only if absent. -/
def initialize_qdrant_collection (cols : List (String × Nat)) :
    List (String × Nat) :=
  if cols.any (fun p => p.1 == QDRANT_COLLECTION_NAME) then cols
  else (QDRANT_COLLECTION_NAME, 1536) :: cols

lemma find?_eq_none_of_not_any {α : Type} (l : List α) (p : α → Bool)
    (h : l.any p = false) : l.find? p = none := by
  induction l with
  | nil => rfl
  | cons hd tl ih =>
    rw [List.any_cons] at h
    rw [List.find?_cons]
    rcases Bool.or_eq_false_iff.mp h with ⟨h1, h2⟩
    rw [h1]
    exact ih h2

/-- **C9.** The two collection-setup paths disagree: the ingestion path
destructively recreates `book_content` with dimensionality 768 no matter
what was there before, while the startup path leaves any existing
collection untouched (whatever its dimensionality) and creates it with
dimensionality 1536 only when absent; on a fresh server the two paths
configure 768 vs 1536, and 768 ≠ 1536. -/
theorem collection_setup_divergence :
    (∀ cols, dimOf (ingestEnsureCollection cols) QDRANT_COLLECTION_NAME =
        some 768) ∧
    (∀ cols, cols.any (fun p => p.1 == QDRANT_COLLECTION_NAME) = true →
        initialize_qdrant_collection cols = cols) ∧
    (∀ cols, cols.any (fun p => p.1 == QDRANT_COLLECTION_NAME) = false →
        dimOf (initialize_qdrant_collection cols) QDRANT_COLLECTION_NAME =
          some 1536) ∧
    dimOf (ingestEnsureCollection []) QDRANT_COLLECTION_NAME = some 768 ∧
    dimOf (initialize_qdrant_collection []) QDRANT_COLLECTION_NAME =
        some 1536 ∧
    (768 : Nat) ≠ 1536 ∧
    (∀ d, dimOf (ingestEnsureCollection [(QDRANT_COLLECTION_NAME, d)])
          QDRANT_COLLECTION_NAME = some 768 ∧
        dimOf (initialize_qdrant_collection [(QDRANT_COLLECTION_NAME, d)])
          QDRANT_COLLECTION_NAME = some d) := by
  refine ⟨?_, ?_, ?_, by decide, by decide, by decide, ?_⟩
  · intro cols
    rw [ingestEnsureCollection, recreate_collection, dimOf, List.find?_cons]
    simp
  · intro cols h
    rw [initialize_qdrant_collection, if_pos h]
  · intro cols h
    rw [initialize_qdrant_collection, if_neg (by rw [h]; exact Bool.false_ne_true),
      dimOf, List.find?_cons]
    simp
  · intro d
    constructor
    · rw [ingestEnsureCollection, recreate_collection, dimOf, List.find?_cons]
      simp
    · rw [initialize_qdrant_collection, if_pos (by simp), dimOf,
        List.find?_cons]
      simp

/-- Witness for C9 at a server already holding `book_content` with
dimensionality 42: ingestion rewrites it to 768, startup leaves 42. -/
theorem collection_setup_divergence_witness :
    (dimOf (ingestEnsureCollection [(QDRANT_COLLECTION_NAME, 42)])
        QDRANT_COLLECTION_NAME = some 768 ∧
      dimOf (initialize_qdrant_collection [(QDRANT_COLLECTION_NAME, 42)])
        QDRANT_COLLECTION_NAME = some 42) ∧
      initialize_qdrant_collection [(QDRANT_COLLECTION_NAME, 42)] =
        [(QDRANT_COLLECTION_NAME, 42)] ∧
      dimOf (initialize_qdrant_collection [("other", 7)])
        QDRANT_COLLECTION_NAME = some 1536 :=
  ⟨collection_setup_divergence.2.2.2.2.2.2 42,
    collection_setup_divergence.2.1 [(QDRANT_COLLECTION_NAME, 42)]
      (by decide),
    collection_setup_divergence.2.2.1 [("other", 7)] (by decide)⟩

/-! ## Signup and `/auth/me` (`main.py` 159–195, 249–282; `auth.py`)

`users_db` is the in-memory dict, modelled as an association list from
username to the stored record.  Password hashing is an oracle.  For
`/auth/me` the JWT decode is abstracted: `payload = none` models an invalid
token, `some sub` the decoded payload with its optional `sub` claim. -/

structure StoredUser where
  hashed_password : String
  email : String
  full_name : String
deriving DecidableEq

structure UserOut where
  username : String
  email : String
  full_name : Option String
deriving DecidableEq

/-- `POST /auth/signup`: reject a taken username with 400, otherwise store
`{hashed_password, email, full_name := username}` (the request carries no
full-name field; the code comments "Using username as full_name for
simplicity") and return the `User` response. -/
def signup (hash : String → String) (users_db : List (String × StoredUser))
    (username email password : String) :
    Except Nat (List (String × StoredUser) × UserOut) :=
  if users_db.any (fun p => p.1 == username) then .error 400
  else .ok ((username, ⟨hash password, email, username⟩) :: users_db,
    ⟨username, email, some username⟩)

/-- `GET /auth/me`: 401 on an undecodable token, missing `sub` claim, or
unknown user; otherwise return the stored record's fields. -/
def read_users_me (users_db : List (String × StoredUser))
    (payload : Option (Option String)) : Except Nat UserOut :=
  match payload with
  | none => .error 401
  | some sub =>
    match sub with
    | none => .error 401
    | some username =>
      match users_db.find? (fun p => p.1 == username) with
      | none => .error 401
      | some p => .ok ⟨username, p.2.email, some p.2.full_name⟩

/-- **C10.** A successful signup stores the submitted username as the
record's `full_name`, returns that same value as the response's
`full_name`, and a subsequent `/auth/me` for that user reports
`full_name = username`. -/
theorem signup_full_name_is_username (hash : String → String)
    (users_db : List (String × StoredUser)) (username email password : String)
    (hfree : users_db.any (fun p => p.1 == username) = false) :
    ∃ db, signup hash users_db username email password =
        .ok (db, ⟨username, email, some username⟩) ∧
      (db.find? (fun p => p.1 == username)).map
          (fun p => p.2.full_name) = some username ∧
      read_users_me db (some (some username)) =
        .ok ⟨username, email, some username⟩ := by
  refine ⟨(username, ⟨hash password, email, username⟩) :: users_db, ?_, ?_, ?_⟩
  · rw [signup, if_neg (by rw [hfree]; exact Bool.false_ne_true)]
  · rw [List.find?_cons]
    simp
  · rw [read_users_me, List.find?_cons]
    simp

/-- Witness for C10: signing up `"alice"` on an empty user store. -/
theorem signup_full_name_is_username_witness :
    ∃ db, signup id [] "alice" "a@b.c" "pw" =
        .ok (db, ⟨"alice", "a@b.c", some "alice"⟩) ∧
      (db.find? (fun p => p.1 == "alice")).map
          (fun p => p.2.full_name) = some "alice" ∧
      read_users_me db (some (some "alice")) =
        .ok ⟨"alice", "a@b.c", some "alice"⟩ :=
  signup_full_name_is_username id [] "alice" "a@b.c" "pw" rfl

end Chatbot
